import Mathlib

/-!
# Verification of the mercari-build-training item-catalog service

Shallow embedding of the Go service (`app/infra.go` and the sqlite-backed
repository file) and proofs of the specification claims about it.

Strings that the Go code manipulates (paths, names, categories) are modelled
as `List Char`; byte sequences (image contents) as `List Nat` with values
below 256 where it matters.  The `path/filepath` routines (`Clean`, `Join`,
`Base`, `Rel`) are embedded at the path-component level, faithful to their
documented lexical algorithms for unix separators.  `crypto/sha256` and
`encoding/hex` are embedded as the full SHA-256 compression pipeline over
`Nat` words reduced mod 2^32.
-/

/-- Go strings (paths, names, categories) as character lists. -/
abbrev GoStr := List Char

instance {ε α : Type} [DecidableEq ε] [DecidableEq α] : DecidableEq (Except ε α) := by
  intro x y
  cases x <;> cases y
  case error.error a b =>
    exact if h : a = b then .isTrue (by rw [h]) else .isFalse (by simpa using h)
  case error.ok a b => exact .isFalse (by simp)
  case ok.error a b => exact .isFalse (by simp)
  case ok.ok a b =>
    exact if h : a = b then .isTrue (by rw [h]) else .isFalse (by simpa using h)

namespace MercariApp

/-! ## path/filepath embedding (unix rules) -/

/-- Split a path on `'/'`, keeping empty segments (as Go's element scan does:
`"a//b"` has elements `a`, ``, `b`). -/
def splitSlash : GoStr → List GoStr
  | [] => [[]]
  | c :: rest =>
    if c = '/' then [] :: splitSlash rest
    else
      match splitSlash rest with
      | s :: ss => (c :: s) :: ss
      | [] => [[c]]

/-- Join path components with `'/'`. -/
def interSlash : List GoStr → GoStr
  | [] => []
  | [s] => s
  | s :: rest => s ++ '/' :: interSlash rest

/-- The `".."` path element. -/
def dotdot : GoStr := ['.', '.']

/-- One step of `filepath.Clean`'s element processing: skip empty and `"."`
elements, let `".."` pop the last real element (or, unrooted, accumulate),
and push everything else.  The accumulator is the output stack, newest first. -/
def cleanStep (rooted : Bool) (acc : List GoStr) (seg : GoStr) : List GoStr :=
  if seg = [] ∨ seg = ['.'] then acc
  else if seg = dotdot then
    match acc with
    | top :: acc' => if top = dotdot then seg :: acc else acc'
    | [] => if rooted then [] else [seg]
  else seg :: acc

/-- `filepath.Clean` (unix): shortest lexically-equivalent path. -/
def clean (p : GoStr) : GoStr :=
  if p = [] then ['.']
  else
    let rooted := p.head? = some '/'
    let segs := ((splitSlash p).foldl (cleanStep rooted) []).reverse
    if rooted then '/' :: interSlash segs
    else if segs = [] then ['.']
    else interSlash segs

/-- `filepath.Join` on two elements: drop empty elements, join the rest with a
separator and `Clean` the result; all-empty input yields the empty path. -/
def joinPath (a b : GoStr) : GoStr :=
  if a = [] then
    if b = [] then [] else clean b
  else if b = [] then clean a
  else clean (a ++ '/' :: b)

/-- `filepath.Base` (unix): last element of the path after dropping trailing
separators; `"."` for the empty path, `"/"` for an all-separator path. -/
def base (p : GoStr) : GoStr :=
  if p = [] then ['.']
  else
    let q := (p.reverse.dropWhile (· = '/')).reverse
    let r := (q.reverse.takeWhile (· ≠ '/')).reverse
    if r = [] then ['/'] else r

/-- Path components of a `Clean`ed path for `Rel`'s element walk: `"."`
contributes nothing, and separator bookkeeping drops empty segments. -/
def relComponents (s : GoStr) : List GoStr :=
  if s = ['.'] then []
  else (splitSlash s).filter (fun seg => ¬(seg = [] ∨ seg = ['.']))

/-- Strip the longest common leading run of components from both lists. -/
def dropCommon : List GoStr → List GoStr → List GoStr × List GoStr
  | a :: as, b :: bs =>
    if a = b then dropCommon as bs else (a :: as, b :: bs)
  | as, bs => (as, bs)

/-- `filepath.Rel` (unix): the lexical relative path from `basep` to `targp`,
or an error when one is rooted and the other is not, or when reaching the
target would have to traverse an unknown `".."` in the base. -/
def relPath (basep targp : GoStr) : Except Unit GoStr :=
  let b := clean basep
  let t := clean targp
  if b = t then .ok ['.']
  else if (b.head? = some '/') ≠ (t.head? = some '/') then .error ()
  else
    let (bres, tres) := dropCommon (relComponents b) (relComponents t)
    if bres.head? = some dotdot then .error ()
    else
      let all := List.replicate bres.length dotdot ++ tres
      if all = [] then .ok ['.'] else .ok (interSlash all)

example : clean "a/b/../c".data = "a/c".data := by decide
example : clean "../../x".data = "../../x".data := by decide
example : clean "/a/../..".data = "/".data := by decide
example : clean "".data = ".".data := by decide
example : joinPath "images".data "../../secret.jpg".data = "../secret.jpg".data := by decide
example : base "images/abc.jpg".data = "abc.jpg".data := by decide
example : relPath "images".data "images/a.jpg".data = .ok "a.jpg".data := by decide
example : relPath "images".data "../secret.jpg".data = .ok "../../secret.jpg".data := by
  decide
example : relPath "a/b".data "a".data = .ok "..".data := by decide

/-! ## crypto/sha256 and encoding/hex embedding

Bytes are `Nat` values; 32-bit words are `Nat` reduced mod `2^32`. -/

/-- Reduce to a 32-bit word. -/
def w32 (n : Nat) : Nat := n % 4294967296

/-- Rotate a 32-bit word right by `k`. -/
def rotr (k n : Nat) : Nat := w32 ((n >>> k) ||| (n <<< (32 - k)))

/-- Bitwise complement of a 32-bit word. -/
def not32 (n : Nat) : Nat := n ^^^ 4294967295

/-- SHA-256 `Ch(x, y, z)`. -/
def shaCh (x y z : Nat) : Nat := (x &&& y) ^^^ (not32 x &&& z)

/-- SHA-256 `Maj(x, y, z)`. -/
def shaMaj (x y z : Nat) : Nat := ((x &&& y) ^^^ (x &&& z)) ^^^ (y &&& z)

/-- SHA-256 `Σ0`. -/
def bigSigma0 (x : Nat) : Nat := (rotr 2 x ^^^ rotr 13 x) ^^^ rotr 22 x

/-- SHA-256 `Σ1`. -/
def bigSigma1 (x : Nat) : Nat := (rotr 6 x ^^^ rotr 11 x) ^^^ rotr 25 x

/-- SHA-256 `σ0`. -/
def smallSigma0 (x : Nat) : Nat := (rotr 7 x ^^^ rotr 18 x) ^^^ (x >>> 3)

/-- SHA-256 `σ1`. -/
def smallSigma1 (x : Nat) : Nat := (rotr 17 x ^^^ rotr 19 x) ^^^ (x >>> 10)

/-- The 64 SHA-256 round constants, written in decimal. -/
def shaK : List Nat :=
  [1116352408, 1899447441, 3049323471, 3921009573, 961987163,
   1508970993, 2453635748, 2870763221, 3624381080, 310598401,
   607225278, 1426881987, 1925078388, 2162078206, 2614888103,
   3248222580, 3835390401, 4022224774, 264347078, 604807628,
   770255983, 1249150122, 1555081692, 1996064986, 2554220882,
   2821834349, 2952996808, 3210313671, 3336571891, 3584528711,
   113926993, 338241895, 666307205, 773529912, 1294757372,
   1396182291, 1695183700, 1986661051, 2177026350, 2456956037,
   2730485921, 2820302411, 3259730800, 3345764771, 3516065817,
   3600352804, 4094571909, 275423344, 430227734, 506948616,
   659060556, 883997877, 958139571, 1322822218, 1537002063,
   1747873779, 1955562222, 2024104815, 2227730452, 2361852424,
   2428436474, 2756734187, 3204031479, 3329325298]

/-- The SHA-256 initial hash value, written in decimal. -/
def shaH0 : List Nat :=
  [1779033703, 3144134277, 1013904242, 2773480762, 1359893119,
   2600822924, 528734635, 1541459225]

/-- A `Nat` as `k` big-endian bytes. -/
def toBytesBE (k n : Nat) : List Nat :=
  match k with
  | 0 => []
  | k + 1 => toBytesBE k (n >>> 8) ++ [n &&& 255]

/-- SHA-256 padding: `0x80`, zeros to 56 mod 64 bytes, then the bit length as
eight big-endian bytes. -/
def shaPad (msg : List Nat) : List Nat :=
  msg ++ 0x80 :: List.replicate ((64 - (msg.length + 9) % 64) % 64) 0
      ++ toBytesBE 8 (8 * msg.length)

/-- Four big-endian bytes at a time as 32-bit words. -/
def toWords : List Nat → List Nat
  | b0 :: b1 :: b2 :: b3 :: rest =>
    (((b0 <<< 24) ||| (b1 <<< 16)) ||| ((b2 <<< 8) ||| b3)) :: toWords rest
  | _ => []

/-- Split a byte list into 64-byte blocks. -/
def chunks64 (l : List Nat) : List (List Nat) :=
  if h : l = [] then []
  else l.take 64 :: chunks64 (l.drop 64)
termination_by l.length
decreasing_by
  simp only [List.length_drop]
  have : 0 < l.length := List.length_pos.mpr h
  omega

/-- Extend a 16-word message schedule by `k` further words. -/
def extendSchedule (ws : List Nat) : Nat → List Nat
  | 0 => ws
  | k + 1 =>
    let n := ws.length
    extendSchedule
      (ws ++ [w32 (ws.getD (n - 16) 0 + smallSigma0 (ws.getD (n - 15) 0)
                   + ws.getD (n - 7) 0 + smallSigma1 (ws.getD (n - 2) 0))]) k

/-- One SHA-256 round, on the eight-word working state. -/
def shaRound (st : List Nat) (kw : Nat × Nat) : List Nat :=
  match st with
  | [a, b, c, d, e, f, g, h] =>
    let t1 := h + bigSigma1 e + shaCh e f g + kw.1 + kw.2
    let t2 := bigSigma0 a + shaMaj a b c
    [w32 (t1 + t2), a, b, c, w32 (d + t1), e, f, g]
  | _ => st

/-- Compress one 64-byte block into the running hash. -/
def compressBlock (h : List Nat) (block : List Nat) : List Nat :=
  let ws := extendSchedule (toWords block) 48
  let out := (shaK.zip ws).foldl shaRound h
  (h.zip out).map (fun p => w32 (p.1 + p.2))

/-- SHA-256 of a byte sequence, as its 32 digest bytes. -/
def sha256 (msg : List Nat) : List Nat :=
  ((chunks64 (shaPad msg)).foldl compressBlock shaH0).flatMap (toBytesBE 4)

/-- The lowercase hex digits, as `encoding/hex` uses. -/
def hexTable : GoStr := "0123456789abcdef".data

/-- The hex digit for a value below 16. -/
def hexDigit (k : Nat) : Char := hexTable.getD k '0'

/-- `hex.EncodeToString`: two lowercase hex digits per byte. -/
def hexEncode (bs : List Nat) : GoStr :=
  bs.flatMap (fun b => [hexDigit (b / 16 % 16), hexDigit (b % 16)])

/-! ## Data model

The `Item` record (`infra.go`), the two relational tables `categories` and
`items` (schema in the e2e test setup), the legacy JSON mirror file, and the
image directory as a path-to-bytes map. -/

/-- The `Item` struct: id (excluded from JSON), name, category (denormalized
on read), image filename. -/
structure Item where
  id : Nat
  name : GoStr
  category : GoStr
  image : GoStr
deriving DecidableEq, Repr

/-- A row of `categories(id PK autoincrement, name unique)`. -/
structure CategoryRow where
  id : Nat
  name : GoStr
deriving DecidableEq, Repr

/-- A row of `items(id PK autoincrement, name, category_id FK, image_name)`. -/
structure ItemRow where
  id : Nat
  name : GoStr
  categoryId : Nat
  imageName : GoStr
deriving DecidableEq, Repr

/-- The relational store: both tables in natural (insertion) order plus the
next autoincrement keys. -/
structure DbState where
  categories : List CategoryRow
  items : List ItemRow
  nextCategoryId : Nat
  nextItemId : Nat
deriving DecidableEq, Repr

/-- The legacy `items.json` mirror: decodes to an item list, is empty (the
decoder's EOF, which `Insert` treats as an empty list), or is corrupt (any
other decode error). -/
inductive JsonFile where
  | contents (items : List Item)
  | empty
  | corrupt
deriving DecidableEq, Repr

/-- Errors the embedded operations surface, mirroring the Go error values. -/
inductive GoError where
  | uniqueConstraint
  | dbErr (code : Nat)
  | ioErr (code : Nat)
  | jsonDecodeErr
  | writeImageFailed (inner : GoError)
  | failedToGetImage (inner : GoError)
  | nameRequired
  | categoryRequired
  | imageRequired
  | keywordRequired
  | filenameRequired
  | invalidImagePath (p : GoStr)
  | invalidImageSuffix (p : GoStr)
  | imageNotFound
  | http404page
deriving DecidableEq, Repr

/-- Injected failures for the fallible library calls inside `Insert`; `none`
everywhere means every call succeeds. -/
structure InsertFaults where
  lookupFault : Option GoError
  insertCategoryFault : Option GoError
  insertItemFault : Option GoError
  fileOpenFault : Option GoError
  encodeFault : Option GoError
deriving DecidableEq, Repr

/-- No injected failures. -/
def noFaults : InsertFaults := ⟨none, none, none, none, none⟩

/-- Only the category `SELECT` fails, with `e` (an error other than
`sql.ErrNoRows`). -/
def lookupFaultOnly (e : GoError) : InsertFaults := ⟨some e, none, none, none, none⟩

/-- Only the category `INSERT` fails, with `e` (e.g. the unique-constraint
violation from a concurrent first insert of the same name). -/
def categoryFaultOnly (e : GoError) : InsertFaults := ⟨none, some e, none, none, none⟩

/-- Only the mirror file's `OpenFile` fails, with `e`. -/
def fileOpenFaultOnly (e : GoError) : InsertFaults := ⟨none, none, none, some e, none⟩

/-- Only the mirror file's JSON `Encode` fails, with `e`. -/
def encodeFaultOnly (e : GoError) : InsertFaults := ⟨none, none, none, none, some e⟩

/-- The image directory: stored files as path-to-bytes pairs. -/
abbrev FsState := List (GoStr × List Nat)

/-- `os.Stat`-style lookup of a path's contents. -/
def fsLookup (fs : FsState) (p : GoStr) : Option (List Nat) :=
  (fs.find? (fun q => q.1 == p)).map (·.2)

/-- `os.WriteFile`: create or truncate-and-replace the file at `p`. -/
def fsWrite (fs : FsState) (p : GoStr) (b : List Nat) : FsState :=
  fs.filter (fun q => ¬(q.1 = p)) ++ [(p, b)]

/-! ## Item repository (sqlite-backed `infra.go`) -/

/-- The category-resolution half of `Insert`: `SELECT id FROM categories WHERE
name = ?`, and on `sql.ErrNoRows` an `INSERT INTO categories (name)` whose
generated id is captured.  Returns the error (if any), the resolved category
id, and the store afterwards. -/
def resolveCategory (f : InsertFaults) (st : DbState) (cat : GoStr) :
    Option GoError × Nat × DbState :=
  match f.lookupFault with
  | some e => (some e, 0, st)
  | none =>
    match st.categories.find? (fun c => c.name == cat) with
    | some c => (none, c.id, st)
    | none =>
      match f.insertCategoryFault with
      | some e => (some e, 0, st)
      | none =>
        (none, st.nextCategoryId,
         ⟨st.categories ++ [⟨st.nextCategoryId, cat⟩], st.items,
          st.nextCategoryId + 1, st.nextItemId⟩)

/-- The database half of `Insert`: resolve the category, then `INSERT INTO
items (name, category_id, image_name)`. -/
def dbInsertPart (f : InsertFaults) (st : DbState) (item : Item) :
    Option GoError × DbState :=
  match resolveCategory f st item.category with
  | (some e, _, st1) => (some e, st1)
  | (none, categoryId, st1) =>
    match f.insertItemFault with
    | some e => (some e, st1)
    | none =>
      (none,
       ⟨st1.categories,
        st1.items ++ [⟨st1.nextItemId, item.name, categoryId, item.image⟩],
        st1.nextCategoryId, st1.nextItemId + 1⟩)

/-- The legacy mirror half of `Insert`: open-or-create `items.json`, decode it
(EOF on an empty file is ignored), append the item, seek to the start,
truncate, and re-encode the whole list. -/
def mirrorToFile (f : InsertFaults) (file : JsonFile) (item : Item) :
    Option GoError × JsonFile :=
  match f.fileOpenFault with
  | some e => (some e, file)
  | none =>
    match file with
    | .corrupt => (some .jsonDecodeErr, .corrupt)
    | other =>
      let existing := match other with | .contents l => l | _ => []
      match f.encodeFault with
      | some e => (some e, .empty)
      | none => (none, .contents (existing ++ [item]))

/-- `itemRepository.Insert`: the database write happens first, the JSON mirror
write second; the first failing step's error is returned, leaving whatever
already succeeded in place. -/
def repoInsert (f : InsertFaults) (st : DbState) (file : JsonFile)
    (item : Item) : Option GoError × DbState × JsonFile :=
  match dbInsertPart f st item with
  | (some e, st1) => (some e, st1, file)
  | (none, st1) =>
    match mirrorToFile f file item with
    | (some e, file1) => (some e, st1, file1)
    | (none, file1) => (none, st1, file1)

/-- One row of the `items JOIN categories` read: the id, name, category name
and image filename, or nothing when no category row carries the foreign key. -/
def rowToItem (cats : List CategoryRow) (r : ItemRow) : Option Item :=
  (cats.find? (fun c => c.id == r.categoryId)).map
    (fun c => ⟨r.id, r.name, c.name, r.imageName⟩)

/-- `itemRepository.LoadFromDatabase`: the join query in natural order. -/
def loadFromDatabase (st : DbState) : List Item :=
  st.items.filterMap (rowToItem st.categories)

/-- Package-level `StoreImage`: join the directory and filename, write the
bytes (`0666`); a write failure comes back wrapped. -/
def goStoreImage (writeFault : Option GoError) (fs : FsState)
    (dirPath fileName : GoStr) (image : List Nat) : Except GoError FsState :=
  let filePath := joinPath dirPath fileName
  match writeFault with
  | some e => .error (.writeImageFailed e)
  | none => .ok (fsWrite fs filePath image)

/-- The content-addressed image filename: lowercase-hex SHA-256 of the bytes
plus the fixed `".jpg"` extension. -/
def imageFileName (image : List Nat) : GoStr :=
  hexEncode (sha256 image) ++ ".jpg".data

/-- `Handlers.storeImage`: derive the content-addressed filename, and if the
file already exists return its path untouched, otherwise write it. -/
def handlersStoreImage (writeFault : Option GoError) (fs : FsState)
    (imgDirPath : GoStr) (image : List Nat) : Except GoError (GoStr × FsState) :=
  let fileName := imageFileName image
  let filePath := joinPath imgDirPath fileName
  if (fsLookup fs filePath).isSome then .ok (filePath, fs)
  else
    match goStoreImage writeFault fs imgDirPath fileName image with
    | .error e => .error e
    | .ok fs' => .ok (filePath, fs')

/-! ## HTTP layer

A response writer records the status of the first header write and every
chunk of body written, in order; the handlers are translations of the Go
handler bodies over it. -/

/-- One chunk of response body: an `http.Error` line, a JSON-encoded value
(Go `nil` slices encode as JSON `null`, modelled with `Option`), or raw file
bytes from `http.ServeFile`. -/
inductive BodyChunk where
  | errorText (e : GoError)
  | jsonItemsEnvelope (items : Option (List Item))
  | jsonItemList (items : Option (List Item))
  | jsonMessage (name : GoStr)
  | fileBytes (content : List Nat)
deriving DecidableEq, Repr

/-- The response writer: the status fixed by the first header write, and the
body chunks in the order written. -/
structure Writer where
  status : Option Nat
  body : List BodyChunk
deriving DecidableEq, Repr

/-- A fresh response writer. -/
def emptyWriter : Writer := ⟨none, []⟩

/-- `WriteHeader`: the first call fixes the status; later calls are
superfluous and change nothing. -/
def writeHeader (w : Writer) (code : Nat) : Writer :=
  match w.status with
  | some _ => w
  | none => ⟨some code, w.body⟩

/-- A body write: an implicit 200 header if none was written yet, then the
chunk. -/
def writeChunk (w : Writer) (c : BodyChunk) : Writer :=
  let w' := writeHeader w 200
  ⟨w'.status, w'.body ++ [c]⟩

/-- `http.Error`: write the header with `code`, then the error text. -/
def httpError (w : Writer) (code : Nat) (e : GoError) : Writer :=
  let w' := writeHeader w code
  ⟨w'.status, w'.body ++ [.errorText e]⟩

/-- `http.ServeFile`: the file's bytes with a 200, or the server's 404 page. -/
def serveFile (w : Writer) (fs : FsState) (p : GoStr) : Writer :=
  match fsLookup fs p with
  | some bytes => writeChunk w (.fileBytes bytes)
  | none => httpError w 404 .http404page

/-! ### POST /items -/

/-- The incoming multipart form: the `name` and `category` fields (absent
fields read as empty strings) and the outcome of fetching and reading the
`image` file part. -/
structure FormRequest where
  name : GoStr
  category : GoStr
  image : Except GoError (List Nat)
deriving DecidableEq, Repr

/-- The parsed, validated add-item request. -/
structure AddItemRequest where
  name : GoStr
  category : GoStr
  image : List Nat
deriving DecidableEq, Repr

/-- `parseAddItemRequest`: read name and category, fetch and read the image
file part (failure there is an error), then require all three non-empty. -/
def parseAddItemRequest (r : FormRequest) : Except GoError AddItemRequest :=
  match r.image with
  | .error e => .error (.failedToGetImage e)
  | .ok imageData =>
    if r.name = [] then .error .nameRequired
    else if r.category = [] then .error .categoryRequired
    else if imageData = [] then .error .imageRequired
    else .ok ⟨r.name, r.category, imageData⟩

/-- `Handlers.AddItem`: parse (400 on failure), store the image (500 on
failure), build the item with the `Base` of the returned path, `Insert` it
(500 on failure), then answer with the confirmation message. -/
def addItemHandler (f : InsertFaults) (writeFault : Option GoError)
    (r : FormRequest) (fs : FsState) (st : DbState) (file : JsonFile)
    (imgDirPath : GoStr) : Writer × FsState × DbState × JsonFile :=
  match parseAddItemRequest r with
  | .error e => (httpError emptyWriter 400 e, fs, st, file)
  | .ok req =>
    match handlersStoreImage writeFault fs imgDirPath req.image with
    | .error e => (httpError emptyWriter 500 e, fs, st, file)
    | .ok (filePath, fs') =>
      let item : Item := ⟨0, req.name, req.category, base filePath⟩
      match repoInsert f st file item with
      | (some e, st', file') => (httpError emptyWriter 500 e, fs', st', file')
      | (none, st', file') =>
        (writeChunk emptyWriter (.jsonMessage req.name), fs', st', file')

/-! ### GET /items -/

/-- `Handlers.GetItem` over the outcome of `LoadFromDatabase`: on failure it
reports a 500 — and, exactly as the Go body does, then falls through and
encodes the envelope (with the `nil` item slice) into the same response. -/
def getItemHandler (load : Except GoError (List Item)) : Writer :=
  let items : Option (List Item) :=
    match load with
    | .ok l => some l
    | .error _ => none
  let w :=
    match load with
    | .error e => httpError emptyWriter 500 e
    | .ok _ => emptyWriter
  writeChunk w (.jsonItemsEnvelope items)

/-! ### GET /search -/

/-- ASCII-only lower-casing, as SQLite's default `LIKE` folds case. -/
def asciiLower (c : Char) : Char :=
  if 'A' ≤ c ∧ c ≤ 'Z' then Char.ofNat (c.toNat + 32) else c

/-- ASCII-lowercase an entire string. -/
def lowerStr (s : GoStr) : GoStr := s.map asciiLower

/-- Does `f` accept some suffix of the string (itself included)? -/
def anySuffix (f : GoStr → Bool) : GoStr → Bool
  | [] => f []
  | c :: s' => f (c :: s') || anySuffix f s'

/-- SQLite's default `LIKE`: `'%'` matches any run (try the rest of the
pattern at every suffix), `'_'` any one character, anything else one
character up to ASCII case. -/
def likeMatch : GoStr → GoStr → Bool
  | [], s => s.isEmpty
  | q :: ps, s =>
    if q = '%' then anySuffix (likeMatch ps) s
    else
      match s with
      | [] => false
      | c :: s' =>
        (if q = '_' then true else asciiLower q == asciiLower c) &&
          likeMatch ps s'

/-- The rows the search query returns: the join, filtered by
`items.name LIKE '%keyword%'`. -/
def searchRows (st : DbState) (keyword : GoStr) : List Item :=
  (loadFromDatabase st).filter
    (fun it => likeMatch ('%' :: (keyword ++ ['%'])) it.name)

/-- `Handlers.SearchItem`: require a keyword (400 if missing), run the `LIKE`
query (500 on query failure), and encode the scanned slice — `nil`, hence
JSON `null`, when no row matched. -/
def searchItemHandler (st : DbState) (queryFault : Option GoError)
    (keyword : GoStr) : Writer :=
  if keyword = [] then httpError emptyWriter 400 .keywordRequired
  else
    match queryFault with
    | some e => httpError emptyWriter 500 e
    | none =>
      let rows := searchRows st keyword
      writeChunk emptyWriter
        (.jsonItemList (if rows = [] then none else some rows))

/-! ### GET /images/{filename} -/

/-- `Handlers.buildImagePath`: join the cleaned filename onto the image
directory, reject it unless the relative path from the directory stays inside
(no `".."` escape), require a `.jpg`/`.jpeg` suffix, then stat it —
missing files yield the path together with the `image not found` error,
mirroring the Go `(string, error)` pair. -/
def buildImagePath (fs : FsState) (imgDirPath fileName : GoStr) :
    GoStr × Option GoError :=
  let imgPath := joinPath imgDirPath (clean fileName)
  match relPath imgDirPath imgPath with
  | .error _ => ([], some (.invalidImagePath imgPath))
  | .ok rel =>
    if dotdot.isPrefixOf rel then ([], some (.invalidImagePath imgPath))
    else if ¬(".jpg".data.isSuffixOf imgPath ∨ ".jpeg".data.isSuffixOf imgPath)
    then ([], some (.invalidImageSuffix imgPath))
    else if (fsLookup fs imgPath).isSome then (imgPath, none)
    else (imgPath, some .imageNotFound)

/-- `Handlers.GetImage`: an empty filename is a 400; a resolution error other
than not-found is a 400; not-found silently falls back to the fixed default
image; otherwise the resolved file is served. -/
def getImageHandler (fs : FsState) (imgDirPath fileName : GoStr) : Writer :=
  if fileName = [] then httpError emptyWriter 400 .filenameRequired
  else
    match buildImagePath fs imgDirPath fileName with
    | (imgPath, some e) =>
      if e ≠ .imageNotFound then httpError emptyWriter 400 e
      else serveFile emptyWriter fs (joinPath imgDirPath "default.jpg".data)
    | (imgPath, none) => serveFile emptyWriter fs imgPath

/-! ## Path lemmas

`Base (Join dir fn) = fn` for any directory, whenever `fn` is a plain
filename: non-empty, free of separators, and not one of the dot elements.
The content-addressed image filenames are of that shape. -/

theorem splitSlash_ne_nil (s : GoStr) : splitSlash s ≠ [] := by
  cases s with
  | nil => simp [splitSlash]
  | cons c rest =>
    by_cases h : c = '/'
    · simp [splitSlash, h]
    · simp only [splitSlash, if_neg h]
      cases hs : splitSlash rest <;> simp

theorem splitSlash_append (xs ys : GoStr) :
    splitSlash (xs ++ '/' :: ys) = splitSlash xs ++ splitSlash ys := by
  induction xs with
  | nil => simp [splitSlash]
  | cons c rest ih =>
    by_cases h : c = '/'
    · simp [splitSlash, h, ih]
    · simp only [List.cons_append, splitSlash, if_neg h, ih]
      cases hs : splitSlash rest with
      | nil => exact absurd hs (splitSlash_ne_nil rest)
      | cons s ss => simp only [List.append_eq] at *; rw [ih, hs]; simp

theorem splitSlash_of_noSlash (s : GoStr) (h : '/' ∉ s) : splitSlash s = [s] := by
  induction s with
  | nil => simp [splitSlash]
  | cons c rest ih =>
    have hc : c ≠ '/' := fun hc => h (hc ▸ List.mem_cons_self c rest)
    have hr : '/' ∉ rest := fun hr => h (List.mem_cons_of_mem c hr)
    simp [splitSlash, hc, ih hr]

/-- A good filename: what a path element that names a plain file looks like. -/
def goodName (fn : GoStr) : Prop :=
  fn ≠ [] ∧ fn ≠ ['.'] ∧ fn ≠ dotdot ∧ '/' ∉ fn

theorem cleanStep_push (rooted : Bool) (acc : List GoStr) (fn : GoStr)
    (h : goodName fn) : cleanStep rooted acc fn = fn :: acc := by
  obtain ⟨h1, h2, h3, _⟩ := h
  simp [cleanStep, h1, h2, h3]

theorem interSlash_append_last (pre : List GoStr) (fn : GoStr) (h : pre ≠ []) :
    interSlash (pre ++ [fn]) = interSlash pre ++ '/' :: fn := by
  induction pre with
  | nil => exact absurd rfl h
  | cons p pre' ih =>
    cases pre' with
    | nil => simp [interSlash]
    | cons q rest =>
      have ih' : interSlash (q :: (rest ++ [fn])) =
          interSlash (q :: rest) ++ '/' :: fn := ih (by simp)
      simp only [List.cons_append, interSlash, List.append_eq] at *
      rw [ih']
      simp

theorem takeWhile_all_append {p : Char → Bool} (l1 l2 : GoStr) (x : Char)
    (h1 : ∀ a ∈ l1, p a) (hx : ¬ p x) :
    List.takeWhile p (l1 ++ x :: l2) = l1 := by
  induction l1 with
  | nil => simp [List.takeWhile_cons, hx]
  | cons a l ih =>
    have ha : p a := h1 a (List.mem_cons_self a l)
    simp only [List.cons_append, List.takeWhile_cons, ha, if_true]
    rw [ih (fun b hb => h1 b (List.mem_cons_of_mem a hb))]

theorem takeWhile_all {p : Char → Bool} (l : GoStr) (h : ∀ a ∈ l, p a) :
    List.takeWhile p l = l := by
  induction l with
  | nil => rfl
  | cons a l ih =>
    have ha : p a := h a (List.mem_cons_self a l)
    simp only [List.takeWhile_cons, ha, if_true]
    rw [ih (fun b hb => h b (List.mem_cons_of_mem a hb))]



theorem reverse_ne_nil_of_ne_nil (fn : GoStr) (h : fn ≠ []) : fn.reverse ≠ [] := by
  simpa using h

theorem base_append_last (xs fn : GoStr) (h1 : fn ≠ []) (h2 : '/' ∉ fn) :
    base (xs ++ '/' :: fn) = fn := by
  have hne : xs ++ '/' :: fn ≠ [] := by simp
  obtain ⟨c, cs, hcc⟩ := List.exists_cons_of_ne_nil (reverse_ne_nil_of_ne_nil fn h1)
  have hcne : c ≠ '/' := by
    intro hc
    apply h2
    have hm : c ∈ fn.reverse := by rw [hcc]; exact List.mem_cons_self c cs
    rw [List.mem_reverse] at hm
    rwa [hc] at hm
  have hall : ∀ a ∈ (c :: cs : GoStr), (fun x => decide (x ≠ '/')) a = true := by
    intro a ha
    have hm : a ∈ fn.reverse := by rw [hcc]; exact ha
    rw [List.mem_reverse] at hm
    exact decide_eq_true (fun hq => h2 (hq ▸ hm))
  have hrev : (xs ++ '/' :: fn).reverse = c :: (cs ++ '/' :: xs.reverse) := by
    simp [hcc]
  have hdrop : List.dropWhile (fun x => decide (x = '/'))
      (c :: (cs ++ '/' :: xs.reverse)) = c :: (cs ++ '/' :: xs.reverse) := by
    rw [List.dropWhile_cons]
    simp [hcne]
  have htake : List.takeWhile (fun x => decide (x ≠ '/'))
      (c :: (cs ++ '/' :: xs.reverse)) = c :: cs := by
    have h := takeWhile_all_append (c :: cs) xs.reverse '/' hall (by simp)
    simpa using h
  simp only [base, if_neg hne, List.reverse_reverse, hrev, hdrop, htake]
  rw [← hcc, List.reverse_reverse, if_neg h1]

theorem base_of_noSlash (fn : GoStr) (h1 : fn ≠ []) (h2 : '/' ∉ fn) :
    base fn = fn := by
  obtain ⟨c, cs, hcc⟩ := List.exists_cons_of_ne_nil (reverse_ne_nil_of_ne_nil fn h1)
  have hcne : c ≠ '/' := by
    intro hc
    apply h2
    have hm : c ∈ fn.reverse := by rw [hcc]; exact List.mem_cons_self c cs
    rw [List.mem_reverse] at hm
    rwa [hc] at hm
  have hall : ∀ a ∈ (c :: cs : GoStr), (fun x => decide (x ≠ '/')) a = true := by
    intro a ha
    have hm : a ∈ fn.reverse := by rw [hcc]; exact ha
    rw [List.mem_reverse] at hm
    exact decide_eq_true (fun hq => h2 (hq ▸ hm))
  have hdrop : List.dropWhile (fun x => decide (x = '/')) (c :: cs) = c :: cs := by
    rw [List.dropWhile_cons]
    simp [hcne]
  have htake : List.takeWhile (fun x => decide (x ≠ '/')) (c :: cs) = c :: cs :=
    takeWhile_all (c :: cs) hall
  simp only [base, if_neg h1, List.reverse_reverse, hcc, hdrop, htake]
  rw [← hcc, List.reverse_reverse, if_neg h1]

theorem head?_append_of_ne_nil {α : Type} (a b : List α) (h : a ≠ []) :
    (a ++ b).head? = a.head? := by
  cases a with
  | nil => exact absurd rfl h
  | cons x xs => rfl

theorem clean_append_good (dir fn : GoStr) (hd : dir ≠ []) (h : goodName fn) :
    ∃ pre : List GoStr,
      clean (dir ++ '/' :: fn) =
        (if dir.head? = some '/' then '/' :: interSlash (pre ++ [fn])
         else interSlash (pre ++ [fn])) := by
  have hne : dir ++ '/' :: fn ≠ [] := by simp
  have hhead : (dir ++ '/' :: fn).head? = dir.head? :=
    head?_append_of_ne_nil dir _ hd
  have hsplit : splitSlash (dir ++ '/' :: fn) = splitSlash dir ++ [fn] := by
    rw [splitSlash_append, splitSlash_of_noSlash fn h.2.2.2]
  refine ⟨((splitSlash dir).foldl (cleanStep (dir.head? = some '/')) []).reverse, ?_⟩
  simp only [clean, if_neg hne, hhead, hsplit, List.foldl_append, List.foldl_cons,
    List.foldl_nil]
  rw [cleanStep_push _ _ fn h]
  simp only [List.reverse_cons]
  by_cases hr : dir.head? = some '/'
  · simp [hr]
  · simp only [hr, if_false, decide_False]
    have : ((splitSlash dir).foldl (cleanStep false) []).reverse ++ [fn] ≠ [] := by
      simp
    simp [this]

theorem base_interSlash_last (pre : List GoStr) (fn : GoStr)
    (h1 : fn ≠ []) (h2 : '/' ∉ fn) :
    base (interSlash (pre ++ [fn])) = fn := by
  cases pre with
  | nil => simpa [interSlash] using base_of_noSlash fn h1 h2
  | cons p pre' =>
    rw [interSlash_append_last _ fn (by simp)]
    exact base_append_last _ fn h1 h2

theorem base_slash_interSlash_last (pre : List GoStr) (fn : GoStr)
    (h1 : fn ≠ []) (h2 : '/' ∉ fn) :
    base ('/' :: interSlash (pre ++ [fn])) = fn := by
  cases pre with
  | nil =>
    have : '/' :: interSlash ([] ++ [fn]) = [] ++ '/' :: fn := by simp [interSlash]
    rw [this]
    exact base_append_last [] fn h1 h2
  | cons p pre' =>
    rw [interSlash_append_last _ fn (by simp)]
    have : '/' :: (interSlash (p :: pre') ++ '/' :: fn) =
        ('/' :: interSlash (p :: pre')) ++ '/' :: fn := by simp
    rw [this]
    exact base_append_last _ fn h1 h2

/-- `Base (Join dir fn) = fn` for any directory and plain filename. -/
theorem base_joinPath (dir fn : GoStr) (h : goodName fn) :
    base (joinPath dir fn) = fn := by
  obtain ⟨h1, h2, h3, h4⟩ := h
  by_cases hd : dir = []
  · have hclean : clean fn = fn := by
      have hnr : fn.head? ≠ some '/' := by
        cases fn with
        | nil => simp
        | cons c cs =>
          simp only [List.head?_cons]
          intro hc
          have hc' : c = '/' := Option.some.inj hc
          subst hc'
          exact h4 (List.mem_cons_self _ _)
      simp only [clean, if_neg h1, splitSlash_of_noSlash fn h4, List.foldl_cons,
        List.foldl_nil]
      rw [cleanStep_push _ _ fn ⟨h1, h2, h3, h4⟩]
      simp [hnr, interSlash]
    simp only [joinPath, hd, if_true, if_neg h1]
    rw [hclean]
    exact base_of_noSlash fn h1 h4
  · simp only [joinPath, if_neg hd, if_neg h1]
    obtain ⟨pre, hpre⟩ := clean_append_good dir fn hd ⟨h1, h2, h3, h4⟩
    rw [hpre]
    by_cases hr : dir.head? = some '/'
    · simp only [hr, if_true]
      exact base_slash_interSlash_last pre fn h1 h4
    · simp only [hr, if_false]
      exact base_interSlash_last pre fn h1 h4

/-! ## The content-addressed filename is a plain filename -/

theorem hexDigit_ne_slash (k : Nat) : hexDigit k ≠ '/' := by
  by_cases h : k < 16
  · interval_cases k <;> decide
  · rw [hexDigit, List.getD_eq_default]
    · decide
    · simpa [hexTable] using Nat.le_of_not_lt h

theorem slash_not_mem_hexEncode (bs : List Nat) : '/' ∉ hexEncode bs := by
  intro hmem
  rw [hexEncode, List.mem_flatMap] at hmem
  obtain ⟨b, _, hb⟩ := hmem
  simp only [List.mem_cons, List.not_mem_nil, or_false] at hb
  rcases hb with h | h
  · exact hexDigit_ne_slash _ h.symm
  · exact hexDigit_ne_slash _ h.symm

theorem goodName_imageFileName (image : List Nat) :
    goodName (imageFileName image) := by
  refine ⟨?_, ?_, ?_, ?_⟩
  · intro h
    have := congrArg List.length h
    simp [imageFileName] at this
  · intro h
    have := congrArg List.length h
    simp [imageFileName] at this
  · intro h
    have := congrArg List.length h
    simp [imageFileName, dotdot] at this
  · intro h
    rw [imageFileName, List.mem_append] at h
    rcases h with h | h
    · exact slash_not_mem_hexEncode _ h
    · simp at h

/-! ## Database well-formedness and the insert/load lemmas -/

/-- A reachable store: category ids are distinct and below the next key, item
ids are below the next key, and every item row's foreign key resolves (the
schema's referential integrity). -/
def wfDb (st : DbState) : Prop :=
  (st.categories.map (fun c => c.id)).Nodup ∧
  (∀ c ∈ st.categories, c.id < st.nextCategoryId) ∧
  (∀ r ∈ st.items, ∃ c ∈ st.categories, c.id = r.categoryId)

instance (st : DbState) : Decidable (wfDb st) := by
  unfold wfDb
  infer_instance

/-- The response triple an item is matched against: name, category, image
filename. -/
def matchesTriple (name category image : GoStr) (it : Item) : Bool :=
  it.name == name && it.category == category && it.image == image

theorem find_by_id_self (cats : List CategoryRow)
    (hnd : (cats.map (fun c => c.id)).Nodup) (c : CategoryRow) (hc : c ∈ cats) :
    cats.find? (fun d => d.id == c.id) = some c := by
  induction cats with
  | nil => simp at hc
  | cons h t ih =>
    rcases List.mem_cons.mp hc with rfl | hct
    · simp [List.find?_cons]
    · have hid : h.id ≠ c.id := by
        intro he
        have : h.id ∈ t.map (fun c => c.id) := by
          rw [he]
          exact List.mem_map.mpr ⟨c, hct, rfl⟩
        simp only [List.map_cons, List.nodup_cons] at hnd
        exact hnd.1 this
      have hnd' : (t.map (fun c => c.id)).Nodup := by
        simp only [List.map_cons, List.nodup_cons] at hnd
        exact hnd.2
      rw [List.find?_cons_of_neg _ (by simp [hid])]
      exact ih hnd' hct

theorem find_by_id_append_new (cats : List CategoryRow) (newc : CategoryRow)
    (hfresh : ∀ c ∈ cats, c.id ≠ newc.id) :
    (cats ++ [newc]).find? (fun d => d.id == newc.id) = some newc := by
  rw [List.find?_append]
  have hnone : cats.find? (fun d => d.id == newc.id) = none := by
    rw [List.find?_eq_none]
    intro x hx
    simpa using hfresh x hx
  rw [hnone]
  simp [List.find?_cons]

theorem rowToItem_append_cat (cats : List CategoryRow) (newc : CategoryRow)
    (r : ItemRow) (hfk : ∃ c ∈ cats, c.id = r.categoryId) :
    rowToItem (cats ++ [newc]) r = rowToItem cats r := by
  obtain ⟨c, hc, hid⟩ := hfk
  have hsome : (cats.find? (fun d => d.id == r.categoryId)).isSome := by
    rw [List.find?_isSome]
    exact ⟨c, hc, by simp [hid]⟩
  rw [rowToItem, rowToItem, List.find?_append]
  obtain ⟨d, hd⟩ := Option.isSome_iff_exists.mp hsome
  rw [hd]
  rfl

theorem filterMap_congr_on {α β : Type} (l : List α) {f g : α → Option β}
    (h : ∀ a ∈ l, f a = g a) : l.filterMap f = l.filterMap g := by
  induction l with
  | nil => rfl
  | cons a t ih =>
    rw [List.filterMap_cons, List.filterMap_cons, h a (List.mem_cons_self a t),
      ih (fun b hb => h b (List.mem_cons_of_mem a hb))]

theorem dbInsertPart_found (st : DbState) (item : Item) (c : CategoryRow)
    (hfind : st.categories.find? (fun d => d.name == item.category) = some c) :
    dbInsertPart noFaults st item =
      (none, ⟨st.categories,
              st.items ++ [⟨st.nextItemId, item.name, c.id, item.image⟩],
              st.nextCategoryId, st.nextItemId + 1⟩) := by
  simp [dbInsertPart, resolveCategory, noFaults, hfind]

theorem dbInsertPart_new (st : DbState) (item : Item)
    (hfind : st.categories.find? (fun d => d.name == item.category) = none) :
    dbInsertPart noFaults st item =
      (none, ⟨st.categories ++ [⟨st.nextCategoryId, item.category⟩],
              st.items ++ [⟨st.nextItemId, item.name, st.nextCategoryId, item.image⟩],
              st.nextCategoryId + 1, st.nextItemId + 1⟩) := by
  simp [dbInsertPart, resolveCategory, noFaults, hfind]

theorem mirrorToFile_ok (file : JsonFile) (item : Item) (h : file ≠ .corrupt) :
    ∃ l, mirrorToFile noFaults file item = (none, .contents (l ++ [item])) := by
  cases file with
  | contents l => exact ⟨l, by simp [mirrorToFile, noFaults]⟩
  | empty => exact ⟨[], by simp [mirrorToFile, noFaults]⟩
  | corrupt => exact absurd rfl h

/-- After a successful insert the join returns the old rows unchanged plus the
new item, carrying the requested category name. -/
theorem loadFromDatabase_after_insert (st : DbState) (item : Item)
    (hwf : wfDb st) :
    ∃ st' newId,
      (∀ file, file ≠ .corrupt →
        ∃ l, repoInsert noFaults st file item =
          (none, st', .contents (l ++ [item]))) ∧
      loadFromDatabase st' =
        loadFromDatabase st ++ [⟨newId, item.name, item.category, item.image⟩] := by
  obtain ⟨hnd, hlt, hfk⟩ := hwf
  cases hfind : st.categories.find? (fun d => d.name == item.category) with
  | some c =>
    have hcmem : c ∈ st.categories := List.mem_of_find?_eq_some hfind
    have hcname : c.name = item.category := by
      have := List.find?_some hfind
      simpa using this
    refine ⟨DbState.mk st.categories
        (st.items ++ [ItemRow.mk st.nextItemId item.name c.id item.image])
        st.nextCategoryId (st.nextItemId + 1), st.nextItemId, ?_, ?_⟩
    · intro file hfile
      obtain ⟨l, hl⟩ := mirrorToFile_ok file item hfile
      exact ⟨l, by rw [repoInsert, dbInsertPart_found st item c hfind, hl]⟩
    · show (st.items ++ [ItemRow.mk st.nextItemId item.name c.id item.image]).filterMap
          (rowToItem st.categories) = _
      rw [List.filterMap_append]
      have hrow : rowToItem st.categories (ItemRow.mk st.nextItemId item.name c.id item.image) =
          some (Item.mk st.nextItemId item.name item.category item.image) := by
        rw [rowToItem]
        show (st.categories.find? (fun d => d.id == c.id)).map _ = _
        rw [find_by_id_self st.categories hnd c hcmem]
        simp [hcname]
      rw [loadFromDatabase]
      simp [hrow]
  | none =>
    refine ⟨DbState.mk (st.categories ++ [CategoryRow.mk st.nextCategoryId item.category])
        (st.items ++ [ItemRow.mk st.nextItemId item.name st.nextCategoryId item.image])
        (st.nextCategoryId + 1) (st.nextItemId + 1), st.nextItemId, ?_, ?_⟩
    · intro file hfile
      obtain ⟨l, hl⟩ := mirrorToFile_ok file item hfile
      exact ⟨l, by rw [repoInsert, dbInsertPart_new st item hfind, hl]⟩
    · show (st.items ++ [ItemRow.mk st.nextItemId item.name st.nextCategoryId item.image]).filterMap
          (rowToItem (st.categories ++ [CategoryRow.mk st.nextCategoryId item.category])) = _
      rw [List.filterMap_append]
      have hold : st.items.filterMap
          (rowToItem (st.categories ++ [CategoryRow.mk st.nextCategoryId item.category])) =
          st.items.filterMap (rowToItem st.categories) :=
        filterMap_congr_on st.items
          (fun r hr => rowToItem_append_cat st.categories _ r (hfk r hr))
      have hrow : rowToItem (st.categories ++ [CategoryRow.mk st.nextCategoryId item.category])
          (ItemRow.mk st.nextItemId item.name st.nextCategoryId item.image) =
          some (Item.mk st.nextItemId item.name item.category item.image) := by
        rw [rowToItem]
        show ((st.categories ++ [CategoryRow.mk st.nextCategoryId item.category]).find?
            (fun d => d.id == st.nextCategoryId)).map _ = _
        rw [find_by_id_append_new st.categories (CategoryRow.mk st.nextCategoryId item.category)
          (fun c hc => Nat.ne_of_lt (hlt c hc))]
        rfl
      rw [loadFromDatabase, hold]
      simp [hrow]

/-- C1: for every valid (name, category, image-bytes) triple, starting from a
well-formed state with no matching item, storing the image then `Insert` then
`LoadFromDatabase` yields exactly one item whose name, category and image
filename match the request, and that filename is the lowercase-hex SHA-256 of
the bytes plus `".jpg"`. -/
theorem C1_insert_load_exactly_one
    (name category : GoStr) (image : List Nat)
    (st : DbState) (file : JsonFile) (imgDir : GoStr) (fs : FsState)
    (hname : name ≠ []) (hcat : category ≠ []) (himg : image ≠ [])
    (hwf : wfDb st) (hfile : file ≠ .corrupt)
    (hnone : (loadFromDatabase st).countP
        (matchesTriple name category (imageFileName image)) = 0) :
    ∃ fs' st' file',
      handlersStoreImage none fs imgDir image =
        .ok (joinPath imgDir (imageFileName image), fs') ∧
      base (joinPath imgDir (imageFileName image)) = imageFileName image ∧
      repoInsert noFaults st file
        ⟨0, name, category, base (joinPath imgDir (imageFileName image))⟩ =
        (none, st', file') ∧
      (loadFromDatabase st').countP
        (matchesTriple name category (imageFileName image)) = 1 := by
  have hbase : base (joinPath imgDir (imageFileName image)) = imageFileName image :=
    base_joinPath imgDir _ (goodName_imageFileName image)
  have hstore : ∃ fs', handlersStoreImage none fs imgDir image =
      .ok (joinPath imgDir (imageFileName image), fs') := by
    by_cases h : (fsLookup fs (joinPath imgDir (imageFileName image))).isSome
    · exact ⟨fs, by simp [handlersStoreImage, h]⟩
    · exact ⟨fsWrite fs (joinPath imgDir (imageFileName image)) image,
        by simp [handlersStoreImage, h, goStoreImage]⟩
  obtain ⟨fs', hfs'⟩ := hstore
  obtain ⟨st', newId, hins, hload⟩ :=
    loadFromDatabase_after_insert st ⟨0, name, category, imageFileName image⟩ hwf
  obtain ⟨l, hl⟩ := hins file hfile
  refine ⟨fs', st', .contents (l ++ [⟨0, name, category, imageFileName image⟩]),
    hfs', hbase, ?_, ?_⟩
  · rw [hbase]
    exact hl
  · rw [hload, List.countP_append, hnone]
    simp [matchesTriple]

/-! ## Image store idempotence (C3) -/

theorem fsLookup_fsWrite_self (fs : FsState) (p : GoStr) (b : List Nat) :
    fsLookup (fsWrite fs p b) p = some b := by
  rw [fsLookup, fsWrite, List.find?_append]
  have h1 : (fs.filter (fun q => ¬(q.1 = p))).find? (fun q => q.1 == p) = none := by
    rw [List.find?_eq_none]
    intro x hx
    have hmem := List.of_mem_filter hx
    simp at hmem ⊢
    exact hmem
  rw [h1]
  simp [List.find?_cons]

/-- C3: the content-addressed store is idempotent — after a first store of the
bytes, a second store of the same bytes finds the file, writes nothing (any
injected write fault is irrelevant), and returns the same filename with no
error, so the directory is unchanged. -/
theorem C3_storeImage_idempotent (fs : FsState) (imgDir : GoStr)
    (image : List Nat) (w2 : Option GoError) :
    ∃ fp fs1,
      handlersStoreImage none fs imgDir image = .ok (fp, fs1) ∧
      handlersStoreImage w2 fs1 imgDir image = .ok (fp, fs1) := by
  by_cases h : (fsLookup fs (joinPath imgDir (imageFileName image))).isSome
  · refine ⟨joinPath imgDir (imageFileName image), fs, ?_, ?_⟩ <;>
      simp [handlersStoreImage, h]
  · refine ⟨joinPath imgDir (imageFileName image),
      fsWrite fs (joinPath imgDir (imageFileName image)) image, ?_, ?_⟩
    · simp [handlersStoreImage, h, goStoreImage]
    · have hlook : (fsLookup
          (fsWrite fs (joinPath imgDir (imageFileName image)) image)
          (joinPath imgDir (imageFileName image))).isSome := by
        rw [fsLookup_fsWrite_self]
        rfl
      simp [handlersStoreImage, hlook]

/-! ## GetImage path safety and fallback (C2, C9) -/

/-- C2: whenever the relative path from the image directory to the joined,
cleaned request starts with the parent-directory element, `buildImagePath`
rejects the request with the invalid-path error and returns no path, and
`GetImage` answers 400 with only that error text — never file bytes. -/
theorem C2_traversal_rejected (fs : FsState) (imgDir fn rel : GoStr)
    (hfn : fn ≠ [])
    (hrel : relPath imgDir (joinPath imgDir (clean fn)) = .ok rel)
    (hpfx : dotdot.isPrefixOf rel = true) :
    buildImagePath fs imgDir fn =
      ([], some (.invalidImagePath (joinPath imgDir (clean fn)))) ∧
    getImageHandler fs imgDir fn =
      ⟨some 400, [.errorText (.invalidImagePath (joinPath imgDir (clean fn)))]⟩ := by
  have hb : buildImagePath fs imgDir fn =
      ([], some (.invalidImagePath (joinPath imgDir (clean fn)))) := by
    simp [buildImagePath, hrel, hpfx]
  refine ⟨hb, ?_⟩
  simp [getImageHandler, hfn, hb, httpError, writeHeader, emptyWriter]

/-- C9: when resolution signals not-found, `GetImage` serves the fixed default
image with a 200; when resolution fails for any other reason, it answers
400. -/
theorem C9_notfound_fallback (fs : FsState) (imgDir fn : GoStr)
    (dbytes : List Nat) (hfn : fn ≠ [])
    (hdef : fsLookup fs (joinPath imgDir "default.jpg".data) = some dbytes) :
    (∀ p, buildImagePath fs imgDir fn = (p, some .imageNotFound) →
      getImageHandler fs imgDir fn = ⟨some 200, [.fileBytes dbytes]⟩) ∧
    (∀ p e, buildImagePath fs imgDir fn = (p, some e) → e ≠ .imageNotFound →
      getImageHandler fs imgDir fn = ⟨some 400, [.errorText e]⟩) := by
  constructor
  · intro p hbp
    simp [getImageHandler, hfn, hbp, serveFile, hdef, writeChunk, writeHeader,
      emptyWriter]
  · intro p e hbp he
    simp [getImageHandler, hfn, hbp, he, httpError, writeHeader, emptyWriter]

/-! ## GET /items keeps writing after an error (C6) -/

/-- C6 exposes a bug: when loading fails, `GetItem` reports the 500 error but
then still encodes the items envelope (with the nil slice) into the same
response body, because the Go handler is missing a `return` after
`http.Error` — so the body is not left at just the error report. -/
theorem C6_getItem_writes_after_error (e : GoError) :
    getItemHandler (.error e) =
      ⟨some 500, [.errorText e, .jsonItemsEnvelope none]⟩ := rfl

/-- The healthy half of the `GetItem` flow: a successful load encodes the
envelope with an implicit 200 and nothing else. -/
theorem getItem_ok (items : List Item) :
    getItemHandler (.ok items) = ⟨some 200, [.jsonItemsEnvelope (some items)]⟩ := rfl

/-! ## AddItem validation has no side effects (C7) -/

/-- C7: for a request failing validation — empty name, empty category, a
missing or unreadable image part, or empty image bytes — `AddItem` answers
400 with the validation error and leaves the image directory, the database
and the mirror file exactly as they were. -/
theorem C7_addItem_validation_no_side_effects (f : InsertFaults)
    (wf : Option GoError) (r : FormRequest) (fs : FsState) (st : DbState)
    (file : JsonFile) (imgDir : GoStr)
    (h : r.name = [] ∨ r.category = [] ∨ (∃ e, r.image = .error e) ∨
         r.image = .ok []) :
    ∃ e, parseAddItemRequest r = .error e ∧
      addItemHandler f wf r fs st file imgDir =
        (⟨some 400, [.errorText e]⟩, fs, st, file) := by
  have hp : ∃ e, parseAddItemRequest r = .error e := by
    cases him : r.image with
    | error e2 => exact ⟨.failedToGetImage e2, by simp [parseAddItemRequest, him]⟩
    | ok img =>
      by_cases hn : r.name = []
      · exact ⟨.nameRequired, by simp [parseAddItemRequest, him, hn]⟩
      · by_cases hc : r.category = []
        · exact ⟨.categoryRequired, by simp [parseAddItemRequest, him, hn, hc]⟩
        · have himg : img = [] := by
            rcases h with h | h | ⟨e2, he2⟩ | h
            · exact absurd h hn
            · exact absurd h hc
            · rw [him] at he2
              cases he2
            · rw [him] at h
              exact Except.ok.inj h
          exact ⟨.imageRequired, by simp [parseAddItemRequest, him, hn, hc, himg]⟩
  obtain ⟨e, he⟩ := hp
  exact ⟨e, he, by simp [addItemHandler, he, httpError, writeHeader, emptyWriter]⟩

/-! ## Insert's category resolution (C4) and the duplicate-category race (C5) -/

/-- C4: `Insert` resolves the category by exact name — an existing row's id is
referenced unchanged; a missing row is created exactly once and its generated
id referenced; and a lookup failure other than not-found aborts with that
error, inserting nothing anywhere. -/
theorem C4_insert_category_resolution (st : DbState) (file : JsonFile)
    (item : Item) (hfile : file ≠ .corrupt) :
    (∀ c, st.categories.find? (fun d => d.name == item.category) = some c →
      ∃ l, repoInsert noFaults st file item =
        (none,
         DbState.mk st.categories
           (st.items ++ [ItemRow.mk st.nextItemId item.name c.id item.image])
           st.nextCategoryId (st.nextItemId + 1),
         .contents (l ++ [item]))) ∧
    (st.categories.find? (fun d => d.name == item.category) = none →
      ∃ l, repoInsert noFaults st file item =
        (none,
         DbState.mk
           (st.categories ++ [CategoryRow.mk st.nextCategoryId item.category])
           (st.items ++
             [ItemRow.mk st.nextItemId item.name st.nextCategoryId item.image])
           (st.nextCategoryId + 1) (st.nextItemId + 1),
         .contents (l ++ [item]))) ∧
    (∀ e, repoInsert (lookupFaultOnly e) st file item = (some e, st, file)) := by
  refine ⟨?_, ?_, ?_⟩
  · intro c hfind
    obtain ⟨l, hl⟩ := mirrorToFile_ok file item hfile
    exact ⟨l, by rw [repoInsert, dbInsertPart_found st item c hfind, hl]⟩
  · intro hfind
    obtain ⟨l, hl⟩ := mirrorToFile_ok file item hfile
    exact ⟨l, by rw [repoInsert, dbInsertPart_new st item hfind, hl]⟩
  · intro e
    rfl

/-- C5 as written is refuted: with the duplicate-category race modelled as the
category `INSERT` failing with the unique-constraint violation (the concurrent
first insert won), `Insert` does not resolve to the pre-existing row and
succeed — it surfaces the constraint error and inserts nothing. -/
theorem C5_counterexample :
    repoInsert (categoryFaultOnly .uniqueConstraint) (DbState.mk [] [] 1 1)
      .empty (Item.mk 0 "used iPhone 16e".data "phone".data "x.jpg".data) =
    (some .uniqueConstraint, DbState.mk [] [] 1 1, .empty) := rfl

/-- C5 amended: when the category insert hits a unique-constraint conflict
(or any other insert error), `Insert` returns that error to its caller and
changes nothing; no recovery to the pre-existing row exists in the code. -/
theorem C5_amended_conflict_surfaces (st : DbState) (file : JsonFile)
    (item : Item) (e : GoError)
    (hfind : st.categories.find? (fun d => d.name == item.category) = none) :
    repoInsert (categoryFaultOnly e) st file item = (some e, st, file) := by
  simp [repoInsert, dbInsertPart, resolveCategory, categoryFaultOnly, hfind]

/-! ## Insert is not atomic across the two persistence targets (C10) -/

theorem dbInsertPart_items (f : InsertFaults) (st : DbState) (item : Item)
    (h1 : f.lookupFault = none) (h2 : f.insertCategoryFault = none)
    (h3 : f.insertItemFault = none) :
    ∃ st1 cid, dbInsertPart f st item = (none, st1) ∧
      st1.items = st.items ++ [ItemRow.mk st.nextItemId item.name cid item.image] := by
  obtain ⟨fl, fc, fi, fo, fe⟩ := f
  simp only at h1 h2 h3
  subst h1
  subst h2
  subst h3
  cases hfind : st.categories.find? (fun d => d.name == item.category) with
  | some c =>
    refine ⟨DbState.mk st.categories
      (st.items ++ [ItemRow.mk st.nextItemId item.name c.id item.image])
      st.nextCategoryId (st.nextItemId + 1), c.id, ?_, rfl⟩
    simp [dbInsertPart, resolveCategory, hfind]
  | none =>
    refine ⟨DbState.mk
      (st.categories ++ [CategoryRow.mk st.nextCategoryId item.category])
      (st.items ++ [ItemRow.mk st.nextItemId item.name st.nextCategoryId item.image])
      (st.nextCategoryId + 1) (st.nextItemId + 1), st.nextCategoryId, ?_, rfl⟩
    simp [dbInsertPart, resolveCategory, hfind]

/-- C10: the database row is written before the legacy JSON mirror is
attempted, so when any mirror step fails (open, decode of corrupt content,
encode) `Insert` returns that error while the item row already sits in the
database; resubmitting the same item then yields a second row with the same
name and image. -/
theorem C10_insert_not_atomic (st : DbState) (file : JsonFile) (item : Item)
    (f : InsertFaults) (e : GoError)
    (h1 : f.lookupFault = none) (h2 : f.insertCategoryFault = none)
    (h3 : f.insertItemFault = none)
    (hm : ∀ it : Item, (mirrorToFile f file it).1 = some e) :
    ∃ st1 file1,
      repoInsert f st file item = (some e, st1, file1) ∧
      st1.items.map (fun r => (r.name, r.imageName)) =
        st.items.map (fun r => (r.name, r.imageName)) ++
          [(item.name, item.image)] ∧
      (∀ goodFile : JsonFile, goodFile ≠ .corrupt →
        ∃ st2 file2, repoInsert noFaults st1 goodFile item = (none, st2, file2) ∧
          st2.items.map (fun r => (r.name, r.imageName)) =
            st.items.map (fun r => (r.name, r.imageName)) ++
              [(item.name, item.image), (item.name, item.image)]) := by
  obtain ⟨st1, cid, hdb, hitems⟩ := dbInsertPart_items f st item h1 h2 h3
  have hmir : mirrorToFile f file item = (some e, (mirrorToFile f file item).2) := by
    rw [← hm item]
  refine ⟨st1, (mirrorToFile f file item).2, ?_, ?_, ?_⟩
  · rw [repoInsert, hdb, hmir]
  · simp [hitems]
  · intro goodFile hgood
    obtain ⟨st2, cid2, hdb2, hitems2⟩ :=
      dbInsertPart_items noFaults st1 item rfl rfl rfl
    obtain ⟨l, hl⟩ := mirrorToFile_ok goodFile item hgood
    refine ⟨st2, .contents (l ++ [item]), ?_, ?_⟩
    · rw [repoInsert, hdb2, hl]
    · simp [hitems2, hitems]

/-! ## Search: LIKE versus substring (C8) -/

/-- Follows the spec's words for C8: the name "contains the keyword as a
substring" — a literal, case-sensitive containment check, used to compare the
`LIKE`-based query against the specified behaviour. -/
def substringSpec (needle hay : GoStr) : Bool :=
  (List.range (hay.length + 1)).any (fun i => needle.isPrefixOf (hay.drop i))

/-- A keyword with no `LIKE` metacharacters. -/
def noWildcard (kw : GoStr) : Prop := '%' ∉ kw ∧ '_' ∉ kw

instance (kw : GoStr) : Decidable (noWildcard kw) := by
  unfold noWildcard
  infer_instance

theorem bool_eq_of_iff {a b : Bool} (h : a = true ↔ b = true) : a = b := by
  cases a <;> cases b <;> simp_all

theorem anySuffix_iff (f : GoStr → Bool) (s : GoStr) :
    anySuffix f s = true ↔ ∃ i, f (s.drop i) = true := by
  induction s with
  | nil =>
    constructor
    · intro h
      exact ⟨0, h⟩
    · rintro ⟨i, hi⟩
      rwa [List.drop_nil] at hi
  | cons c s' ih =>
    constructor
    · intro h
      rcases Bool.or_eq_true_iff.mp h with h1 | h2
      · exact ⟨0, h1⟩
      · obtain ⟨i, hi⟩ := ih.mp h2
        exact ⟨i + 1, by simpa using hi⟩
    · rintro ⟨i, hi⟩
      cases i with
      | zero =>
        rw [List.drop_zero] at hi
        exact Bool.or_eq_true_iff.mpr (Or.inl hi)
      | succ j =>
        exact Bool.or_eq_true_iff.mpr
          (Or.inr (ih.mpr ⟨j, by simpa using hi⟩))

theorem likeMatch_percent_iff (p s : GoStr) :
    likeMatch ('%' :: p) s = true ↔ ∃ i, likeMatch p (s.drop i) = true := by
  have h : likeMatch ('%' :: p) s = anySuffix (likeMatch p) s := by
    simp [likeMatch]
  rw [h]
  exact anySuffix_iff (likeMatch p) s

theorem likeMatch_percent_nil (s : GoStr) : likeMatch ['%'] s = true := by
  apply (likeMatch_percent_iff [] s).mpr
  refine ⟨s.length, ?_⟩
  simp [likeMatch]

theorem likeMatch_append_percent (kw : GoStr) (hw : noWildcard kw) :
    ∀ t : GoStr, likeMatch (kw ++ ['%']) t = true ↔
      (lowerStr kw).isPrefixOf (lowerStr t) = true := by
  induction kw with
  | nil =>
    intro t
    simp [likeMatch_percent_nil, lowerStr, List.isPrefixOf]
  | cons c kw' ih =>
    intro t
    have hc1 : c ≠ '%' := fun h => hw.1 (h ▸ List.mem_cons_self c kw')
    have hc2 : c ≠ '_' := fun h => hw.2 (h ▸ List.mem_cons_self c kw')
    have hw' : noWildcard kw' :=
      ⟨fun h => hw.1 (List.mem_cons_of_mem c h),
       fun h => hw.2 (List.mem_cons_of_mem c h)⟩
    cases t with
    | nil => simp [likeMatch, hc1, lowerStr, List.isPrefixOf]
    | cons d t' =>
      have hstep : likeMatch ((c :: kw') ++ ['%']) (d :: t') =
          ((asciiLower c == asciiLower d) && likeMatch (kw' ++ ['%']) t') := by
        simp [likeMatch, hc1, hc2]
      rw [hstep]
      constructor
      · intro h
        obtain ⟨h1, h2⟩ := Bool.and_eq_true_iff.mp h
        have h3 := (ih hw' t').mp h2
        simp only [lowerStr, List.map_cons, List.isPrefixOf]
        exact Bool.and_eq_true_iff.mpr ⟨h1, h3⟩
      · intro h
        simp only [lowerStr, List.map_cons, List.isPrefixOf] at h
        obtain ⟨h1, h2⟩ := Bool.and_eq_true_iff.mp h
        exact Bool.and_eq_true_iff.mpr ⟨h1, (ih hw' t').mpr h2⟩

theorem isPrefixOf_nil_iff (n : GoStr) : n.isPrefixOf ([] : GoStr) = true ↔ n = [] := by
  cases n <;> simp [List.isPrefixOf]

theorem substringSpec_iff (n h : GoStr) :
    substringSpec n h = true ↔ ∃ i, n.isPrefixOf (h.drop i) = true := by
  rw [substringSpec, List.any_eq_true]
  constructor
  · rintro ⟨i, -, hp⟩
    exact ⟨i, hp⟩
  · rintro ⟨i, hp⟩
    by_cases hle : i ≤ h.length
    · exact ⟨i, List.mem_range.mpr (Nat.lt_succ_of_le hle), hp⟩
    · have hdrop : h.drop i = [] := List.drop_eq_nil_of_le (le_of_not_le hle)
      rw [hdrop] at hp
      have hn : n = [] := (isPrefixOf_nil_iff n).mp hp
      subst hn
      exact ⟨0, List.mem_range.mpr (Nat.succ_pos _), by simp [List.isPrefixOf]⟩

/-- A wildcard-free keyword wrapped in `%…%` LIKE-matches a name exactly when
the ASCII-lowercased keyword is a substring of the ASCII-lowercased name. -/
theorem likeMatch_eq_substring (kw s : GoStr) (hw : noWildcard kw) :
    likeMatch ('%' :: (kw ++ ['%'])) s =
      substringSpec (lowerStr kw) (lowerStr s) := by
  apply bool_eq_of_iff
  rw [likeMatch_percent_iff, substringSpec_iff]
  constructor
  · rintro ⟨i, hi⟩
    refine ⟨i, ?_⟩
    have h2 := (likeMatch_append_percent kw hw (s.drop i)).mp hi
    simp only [lowerStr] at h2 ⊢
    rwa [List.map_drop] at h2
  · rintro ⟨i, hi⟩
    refine ⟨i, ?_⟩
    apply (likeMatch_append_percent kw hw (s.drop i)).mpr
    simp only [lowerStr] at hi ⊢
    rwa [List.map_drop]

/-- The two-item store of the specification's search example. -/
def exampleDb : DbState :=
  ⟨[⟨1, "phone".data⟩],
   [⟨1, "used iPhone 16e".data, 1, "a.jpg".data⟩,
    ⟨2, "Pixel 8".data, 1, "b.jpg".data⟩], 2, 3⟩

/-- C8 as stated is refuted: the keyword `used%16e` is not a substring of
`used iPhone 16e`, yet the `LIKE`-based search returns that item, because `%`
inside the keyword acts as a wildcard. -/
theorem C8_counterexample :
    searchItemHandler exampleDb none "used%16e".data =
      ⟨some 200, [.jsonItemList
        (some [⟨1, "used iPhone 16e".data, "phone".data, "a.jpg".data⟩])]⟩ ∧
    substringSpec "used%16e".data "used iPhone 16e".data = false := by
  constructor
  · rfl
  · rfl

/-- C8 amended: for every non-empty wildcard-free keyword, `SearchItem`
returns, as a normal 200 JSON response (`null` for the empty match set, never
an error), exactly the joined rows whose lowercased name contains the
lowercased keyword as a substring; in particular `iPhone` against the example
store returns only `used iPhone 16e`. -/
theorem C8_amended_search (st : DbState) (kw : GoStr) (hk : kw ≠ [])
    (hw : noWildcard kw) :
    (searchItemHandler st none kw =
      ⟨some 200, [.jsonItemList
        (if (loadFromDatabase st).filter
              (fun it => substringSpec (lowerStr kw) (lowerStr it.name)) = []
         then none
         else some ((loadFromDatabase st).filter
              (fun it => substringSpec (lowerStr kw) (lowerStr it.name))))]⟩) ∧
    searchItemHandler exampleDb none "iPhone".data =
      ⟨some 200, [.jsonItemList
        (some [⟨1, "used iPhone 16e".data, "phone".data, "a.jpg".data⟩])]⟩ := by
  constructor
  · have hfilter : searchRows st kw =
        (loadFromDatabase st).filter
          (fun it => substringSpec (lowerStr kw) (lowerStr it.name)) := by
      rw [searchRows]
      exact List.filter_congr
        (fun it _ => likeMatch_eq_substring kw it.name hw)
    simp [searchItemHandler, hk, hfilter, writeChunk, writeHeader, emptyWriter]
  · rfl

/-! ## Concrete witnesses -/

/-- Witness for C1: a concrete request against the empty store. -/
theorem C1_insert_load_exactly_one_witness :
    ∃ fs' st' file',
      handlersStoreImage none [] "images".data [1] =
        .ok (joinPath "images".data (imageFileName [1]), fs') ∧
      base (joinPath "images".data (imageFileName [1])) = imageFileName [1] ∧
      repoInsert noFaults (DbState.mk [] [] 1 1) .empty
        ⟨0, "chair".data, "furniture".data,
          base (joinPath "images".data (imageFileName [1]))⟩ =
        (none, st', file') ∧
      (loadFromDatabase st').countP
        (matchesTriple "chair".data "furniture".data (imageFileName [1])) = 1 :=
  C1_insert_load_exactly_one "chair".data "furniture".data [1]
    (DbState.mk [] [] 1 1) .empty "images".data []
    (by decide) (by decide) (by decide) (by decide) (by decide) rfl

/-- Witness for C2: the classic `../../` traversal filename. -/
theorem C2_traversal_rejected_witness :
    buildImagePath [] "images".data "../../secret.jpg".data =
      ([], some (.invalidImagePath
        (joinPath "images".data (clean "../../secret.jpg".data)))) ∧
    getImageHandler [] "images".data "../../secret.jpg".data =
      ⟨some 400, [.errorText (.invalidImagePath
        (joinPath "images".data (clean "../../secret.jpg".data)))]⟩ :=
  C2_traversal_rejected [] "images".data "../../secret.jpg".data
    "../../secret.jpg".data (by decide) (by decide) (by decide)

/-- Witness for C4: all three resolution branches at concrete stores. -/
theorem C4_insert_category_resolution_witness :
    (∃ l, repoInsert noFaults (DbState.mk [CategoryRow.mk 7 "phone".data] [] 8 1)
        .empty (Item.mk 0 "used iPhone 16e".data "phone".data "x.jpg".data) =
      (none,
       DbState.mk [CategoryRow.mk 7 "phone".data]
         [ItemRow.mk 1 "used iPhone 16e".data 7 "x.jpg".data] 8 2,
       .contents (l ++ [Item.mk 0 "used iPhone 16e".data "phone".data "x.jpg".data]))) ∧
    (∃ l, repoInsert noFaults (DbState.mk [] [] 1 1)
        .empty (Item.mk 0 "used iPhone 16e".data "phone".data "x.jpg".data) =
      (none,
       DbState.mk [CategoryRow.mk 1 "phone".data]
         [ItemRow.mk 1 "used iPhone 16e".data 1 "x.jpg".data] 2 2,
       .contents (l ++ [Item.mk 0 "used iPhone 16e".data "phone".data "x.jpg".data]))) ∧
    repoInsert (lookupFaultOnly (.dbErr 3)) (DbState.mk [] [] 1 1) .empty
      (Item.mk 0 "used iPhone 16e".data "phone".data "x.jpg".data) =
      (some (.dbErr 3), DbState.mk [] [] 1 1, .empty) :=
  ⟨(C4_insert_category_resolution (DbState.mk [CategoryRow.mk 7 "phone".data] [] 8 1)
      .empty (Item.mk 0 "used iPhone 16e".data "phone".data "x.jpg".data)
      (by decide)).1 (CategoryRow.mk 7 "phone".data) (by decide),
   (C4_insert_category_resolution (DbState.mk [] [] 1 1)
      .empty (Item.mk 0 "used iPhone 16e".data "phone".data "x.jpg".data)
      (by decide)).2.1 (by decide),
   (C4_insert_category_resolution (DbState.mk [] [] 1 1)
      .empty (Item.mk 0 "used iPhone 16e".data "phone".data "x.jpg".data)
      (by decide)).2.2 (.dbErr 3)⟩

/-- Witness for the amended C5 at a concrete store. -/
theorem C5_amended_conflict_surfaces_witness :
    repoInsert (categoryFaultOnly .uniqueConstraint) (DbState.mk [] [] 2 5) .empty
      (Item.mk 0 "chair".data "furniture".data "x.jpg".data) =
    (some .uniqueConstraint, DbState.mk [] [] 2 5, .empty) :=
  C5_amended_conflict_surfaces (DbState.mk [] [] 2 5) .empty
    (Item.mk 0 "chair".data "furniture".data "x.jpg".data) .uniqueConstraint
    (by decide)

/-- Witness for C7: the empty-name request leaves every store untouched. -/
theorem C7_addItem_validation_no_side_effects_witness :
    ∃ e, parseAddItemRequest (FormRequest.mk [] "phone".data (.ok [1])) = .error e ∧
      addItemHandler noFaults none (FormRequest.mk [] "phone".data (.ok [1]))
        [] (DbState.mk [] [] 1 1) .empty "images".data =
        (⟨some 400, [.errorText e]⟩, [], DbState.mk [] [] 1 1, .empty) :=
  C7_addItem_validation_no_side_effects noFaults none
    (FormRequest.mk [] "phone".data (.ok [1])) [] (DbState.mk [] [] 1 1) .empty
    "images".data (Or.inl rfl)

/-- Witness for the amended C8 at the example store and keyword `iPhone`. -/
theorem C8_amended_search_witness :
    (searchItemHandler exampleDb none "iPhone".data =
      ⟨some 200, [.jsonItemList
        (if (loadFromDatabase exampleDb).filter
              (fun it => substringSpec (lowerStr "iPhone".data) (lowerStr it.name)) = []
         then none
         else some ((loadFromDatabase exampleDb).filter
              (fun it => substringSpec (lowerStr "iPhone".data) (lowerStr it.name))))]⟩) ∧
    searchItemHandler exampleDb none "iPhone".data =
      ⟨some 200, [.jsonItemList
        (some [⟨1, "used iPhone 16e".data, "phone".data, "a.jpg".data⟩])]⟩ :=
  C8_amended_search exampleDb "iPhone".data (by decide) (by decide)

/-- Witness for C9: the default image is served for a missing file, and a bad
suffix is a 400. -/
theorem C9_notfound_fallback_witness :
    getImageHandler [("images/default.jpg".data, [9, 9])] "images".data
      "a.jpg".data = ⟨some 200, [.fileBytes [9, 9]]⟩ ∧
    getImageHandler [("images/default.jpg".data, [9, 9])] "images".data
      "a.png".data =
      ⟨some 400, [.errorText (.invalidImageSuffix "images/a.png".data)]⟩ :=
  ⟨(C9_notfound_fallback [("images/default.jpg".data, [9, 9])] "images".data
      "a.jpg".data [9, 9] (by decide) (by decide)).1 "images/a.jpg".data
      (by decide),
   (C9_notfound_fallback [("images/default.jpg".data, [9, 9])] "images".data
      "a.png".data [9, 9] (by decide) (by decide)).2 []
      (.invalidImageSuffix "images/a.png".data) (by decide) (by decide)⟩

/-- Witness for C10: a corrupt mirror file fails the second half of `Insert`
while the database keeps the row; resubmission doubles it. -/
theorem C10_insert_not_atomic_witness :
    ∃ st1 file1,
      repoInsert noFaults (DbState.mk [] [] 1 1) .corrupt
        (Item.mk 0 "chair".data "furniture".data "x.jpg".data) =
        (some .jsonDecodeErr, st1, file1) ∧
      st1.items.map (fun r => (r.name, r.imageName)) =
        [("chair".data, "x.jpg".data)] ∧
      (∀ goodFile : JsonFile, goodFile ≠ .corrupt →
        ∃ st2 file2, repoInsert noFaults st1 goodFile
            (Item.mk 0 "chair".data "furniture".data "x.jpg".data) =
            (none, st2, file2) ∧
          st2.items.map (fun r => (r.name, r.imageName)) =
            [("chair".data, "x.jpg".data), ("chair".data, "x.jpg".data)]) :=
  C10_insert_not_atomic (DbState.mk [] [] 1 1) .corrupt
    (Item.mk 0 "chair".data "furniture".data "x.jpg".data) noFaults
    .jsonDecodeErr rfl rfl rfl (fun _ => rfl)

end MercariApp
